import Mathlib

/-!
Verification of the `ipc-server` crate (src/lib.rs, examples/simple/simple.rs).

The crate is a single-threaded, poll-driven Unix-domain-socket IPC server:
`IpcServer::new` removes a stale socket file, binds a listener, restricts the
socket file to mode 0o600 and registers the listener with a `mio::Poll`
instance under `Token(0)`.  `IpcServer::handle_new_messages` polls, then for
each readiness event drains the accept queue: each accepted connection gets
one read into a fixed 1024-byte buffer, one bincode decode, one dispatch to
`IpcServerCommand::process`, and one response write through
`process_command`'s write loop (written as a busy-wait on `WouldBlock`, but
its `map_err` wraps every write error as `InvalidData` first, leaving the
retry arm dead).  `client_send` connects,
writes one encoded command, and loops reading until bytes arrive or a hard
error occurs, sleeping 1 ms on `WouldBlock`.

The embedding below translates this control flow into pure Lean functions.
I/O nondeterminism (what `accept`, `read` and `write` return) is supplied as
explicit schedules; each server drain emits a trace of the primitive socket
operations it performed so that per-connection request/response properties
can be stated.  Bytes are modelled as `List Nat` (each entry the value of one
byte); bincode's fixint little-endian encoding of the example's command and
response enums is modelled concretely.
-/

namespace IpcVerify

/-- Error kinds of `std::io::ErrorKind` that the code distinguishes:
`would_block` checks for `ErrorKind::WouldBlock`, decode failures are wrapped
as `ErrorKind::InvalidData`, and every other kind is opaque. -/
inductive ErrKind where
  | wouldBlock
  | invalidData
  | other (code : Nat)
  deriving DecidableEq, Repr

/-! ## Bincode fixint little-endian codec

`bincode::serialize` / `bincode::deserialize` with the default configuration:
integers fixint little-endian, enum variant tags as `u32`, strings as a `u64`
byte length followed by the raw bytes; trailing bytes are permitted. -/

/-- Little-endian byte encoding of `n` on `k` bytes (fixint). -/
def leBytes : Nat → Nat → List Nat
  | 0, _ => []
  | k + 1, n => n % 256 :: leBytes k (n / 256)

/-- Little-endian read of `k` bytes from the front of a byte list. -/
def readLe : Nat → List Nat → Option (Nat × List Nat)
  | 0, bs => some (0, bs)
  | _ + 1, [] => none
  | k + 1, b :: bs =>
    match readLe k bs with
    | none => none
    | some (v, rest) => some (b + 256 * v, rest)

/-- A `u32` on the wire (bincode enum variant tag). -/
def u32le (n : Nat) : List Nat := leBytes 4 n

/-- A `u64` on the wire (bincode integer / length). -/
def u64le (n : Nat) : List Nat := leBytes 8 n

/-- Read a `u32` from the front of a byte list. -/
def readU32 : List Nat → Option (Nat × List Nat) := readLe 4

/-- Read a `u64` from the front of a byte list. -/
def readU64 : List Nat → Option (Nat × List Nat) := readLe 8

/-- Read exactly `n` raw bytes, failing when fewer are available
(bincode's behaviour for the byte payload of a `String`). -/
def readExact (n : Nat) (bs : List Nat) : Option (List Nat × List Nat) :=
  if n ≤ bs.length then some (bs.take n, bs.drop n) else none

/-! ## The example application's command set (examples/simple/simple.rs)

`ClientCommand` / `ClientResponse` with `Context<'a> = &'a mut Vec<u64>`.
Strings are modelled as their UTF-8 byte lists, `u64` values as naturals
(reduced mod 2^64 where the code's arithmetic wraps). -/

/-- `enum ClientCommand { Print { payload: String }, Add { a: u64, b: u64 },
Push { x: u64 } }`. -/
inductive ClientCommand where
  | print (payload : List Nat)
  | add (a b : Nat)
  | push (x : Nat)
  deriving DecidableEq, Repr

/-- `enum ClientResponse { PrintAck, Add { c: u64 }, Push { x: u64 } }`. -/
inductive ClientResponse where
  | printAck
  | addR (c : Nat)
  | pushR (x : Nat)
  deriving DecidableEq, Repr

/-- `bincode::serialize` of a `ClientCommand`: `u32` variant tag, then the
fields (a `String` is a `u64` length followed by its bytes). -/
def serializeClientCommand : ClientCommand → List Nat
  | .print payload => u32le 0 ++ u64le payload.length ++ payload
  | .add a b => u32le 1 ++ u64le a ++ u64le b
  | .push x => u32le 2 ++ u64le x

/-- `bincode::deserialize::<ClientCommand>` on a byte slice (trailing bytes
permitted, as by `bincode::deserialize`'s default configuration). -/
def deserializeClientCommand (bs : List Nat) : Option ClientCommand :=
  match readU32 bs with
  | none => none
  | some (tag, r1) =>
    if tag = 0 then
      match readU64 r1 with
      | none => none
      | some (len, r2) =>
        match readExact len r2 with
        | none => none
        | some (payload, _) => some (.print payload)
    else if tag = 1 then
      match readU64 r1 with
      | none => none
      | some (a, r2) =>
        match readU64 r2 with
        | none => none
        | some (b, _) => some (.add a b)
    else if tag = 2 then
      match readU64 r1 with
      | none => none
      | some (x, _) => some (.push x)
    else none

/-- `bincode::serialize` of a `ClientResponse`. -/
def serializeClientResponse : ClientResponse → List Nat
  | .printAck => u32le 0
  | .addR c => u32le 1 ++ u64le c
  | .pushR x => u32le 2 ++ u64le x

/-- `bincode::deserialize::<ClientResponse>` on a byte slice. -/
def deserializeClientResponse (bs : List Nat) : Option ClientResponse :=
  match readU32 bs with
  | none => none
  | some (tag, r1) =>
    if tag = 0 then some .printAck
    else if tag = 1 then
      match readU64 r1 with
      | none => none
      | some (c, _) => some (.addR c)
    else if tag = 2 then
      match readU64 r1 with
      | none => none
      | some (x, _) => some (.pushR x)
    else none

/-- `ClientCommand::process` from the example: `Print` acknowledges, `Add`
computes the wrapping `u64` sum, `Push` appends to the `Vec<u64>` context. -/
def processClientCommand : ClientCommand → List Nat → ClientResponse × List Nat
  | .print _, ctx => (.printAck, ctx)
  | .add a b, ctx => (.addR ((a + b) % 18446744073709551616), ctx)
  | .push x, ctx => (.pushR x, ctx ++ [x])

/-- A `ClientCommand` is representable in the Rust program: a `String`'s byte
length fits in `u64` (it is a `usize`). -/
def clientCommandWf : ClientCommand → Prop
  | .print payload => payload.length < 18446744073709551616
  | .add _ _ => True
  | .push _ => True

/-! ## Server model (`IpcServer`, src/lib.rs)

An accepted connection is modelled by the data the environment supplies to
it: what `stream.read` returns (an error kind, or the bytes available on the
stream — the code reads at most 1024 of them into its fixed buffer), and the
outcome of each successive `bincode::serialize_into(&mut *stream, ...)`
attempt made by `process_command`'s write loop. -/

/-- One accepted `UnixStream`, identified by `id`, together with the
environment's schedule for its `read` and its write attempts. -/
structure Conn where
  id : Nat
  readResult : Except ErrKind (List Nat)
  writeSched : List (Except ErrKind Unit)
  deriving Repr

/-- One outcome of `self.listener.accept()` inside the drain loop. -/
inductive AcceptOutcome where
  | conn (c : Conn)
  | wouldBlockEnd
  | acceptFail (k : ErrKind)
  deriving Repr

/-- A primitive socket operation performed by one drain invocation, recorded
so that per-connection request/response properties can be stated. -/
inductive IoOp where
  | accepted (id : Nat)
  | didRead (id : Nat) (buf : List Nat)
  | wrote (id : Nat) (bytes : List Nat)
  deriving DecidableEq, Repr

/-- How the accept loop for one readiness event ends: `broke` for `break`
(would-block, accept error, read error), `fatal` for an error return
propagating out of `handle_new_messages` via `?`, `spinForever` when the
write loop ran out of schedule without any attempt outcome (impossible for
a nonempty write schedule, since the first attempt decides). -/
inductive LoopExit (Ctx : Type) where
  | broke (ctx : Ctx)
  | fatal (k : ErrKind) (ctx : Ctx)
  | spinForever
  deriving Repr

/-- Result of one `handle_new_messages` invocation. -/
inductive DrainResult (Ctx : Type) where
  | ok (ctx : Ctx)
  | fatal (k : ErrKind) (ctx : Ctx)
  | spinForever
  | panicked
  deriving Repr

/-- The `.map_err(|e| io::Error::new(io::ErrorKind::InvalidData, e))` applied
to each `serialize_into` result (src/lib.rs 100): every error — whatever the
kind of the underlying I/O failure, `WouldBlock` included — is wrapped into a
fresh `io::Error` whose kind is `InvalidData`. -/
def wrapSerializeErr : Except ErrKind Unit → Except ErrKind Unit
  | .ok u => .ok u
  | .error _ => .error .invalidData

/-- The write loop inside `IpcServer::process_command` (src/lib.rs 98-111):
each list entry is the outcome one `serialize_into` attempt obtains from the
stream (for an error, the `io::ErrorKind` of the underlying I/O failure).
The code applies `wrapSerializeErr` before matching, so a failed attempt
always reaches the `match` with kind `InvalidData`; the `would_block(err)`
guard therefore never fires, the spin-and-`continue` arm is dead code, and
the first attempt decides the outcome.  `none` models the loop running out
of schedule without an attempt outcome (impossible for a nonempty
schedule). -/
def writeLoop : List (Except ErrKind Unit) → Option (Except ErrKind Unit)
  | [] => none
  | attempt :: rest =>
    match wrapSerializeErr attempt with
    | .ok u => some (.ok u)
    | .error k =>
      if k = ErrKind.wouldBlock then writeLoop rest else some (.error k)

section ServerModel

variable {Cmd Resp Ctx : Type}

/-- `IpcServer::process_command` (src/lib.rs 90-112): runs
`command.process(context)`, then writes the encoded response through the
write loop.  Returns the write outcome, the mutated context, and the
encoded response bytes. -/
def processCommand (proc : Cmd → Ctx → Resp × Ctx) (enc : Resp → List Nat)
    (cmd : Cmd) (ctx : Ctx) (stream : Conn) :
    Option (Except ErrKind Unit) × Ctx × List Nat :=
  (writeLoop stream.writeSched, (proc cmd ctx).2, enc (proc cmd ctx).1)

/-- The `Token(0)` accept loop of `IpcServer::handle_new_messages`
(src/lib.rs 58-82): accept until would-block or an accept error (both
`break`); for each accepted stream read into the fixed 1024-byte buffer
(a read error is logged and `break`s the loop), decode the bytes read (a
decode failure becomes an `InvalidData` error propagated by `?`), then
dispatch through `process_command` (whose error also propagates by `?`).
An exhausted schedule stands for `accept` reporting would-block. -/
def acceptLoop (dec : List Nat → Option Cmd) (proc : Cmd → Ctx → Resp × Ctx)
    (enc : Resp → List Nat) : Ctx → List AcceptOutcome → List IoOp × LoopExit Ctx
  | ctx, [] => ([], .broke ctx)
  | ctx, .wouldBlockEnd :: _ => ([], .broke ctx)
  | ctx, .acceptFail _ :: _ => ([], .broke ctx)
  | ctx, .conn c :: rest =>
    match c.readResult with
    | .error _ => ([.accepted c.id], .broke ctx)
    | .ok data =>
      match dec (data.take 1024) with
      | none =>
        ([.accepted c.id, .didRead c.id (data.take 1024)], .fatal .invalidData ctx)
      | some cmd =>
        match processCommand proc enc cmd ctx c with
        | (none, _, _) =>
          ([.accepted c.id, .didRead c.id (data.take 1024)], .spinForever)
        | (some (.error k), ctx2, _) =>
          ([.accepted c.id, .didRead c.id (data.take 1024)], .fatal k ctx2)
        | (some (.ok _), ctx2, bytes) =>
          (.accepted c.id :: .didRead c.id (data.take 1024) :: .wrote c.id bytes ::
            (acceptLoop dec proc enc ctx2 rest).1,
           (acceptLoop dec proc enc ctx2 rest).2)

/-- `IpcServer::handle_new_messages` (src/lib.rs 52-87): one invocation
iterates over the events delivered by `poll`, each carrying a token and (for
the listener) the accept-queue schedule of that readiness cycle.  A token
other than `0` hits the `unreachable!()` arm (`panicked`).  A fatal exit of
the accept loop returns the error immediately; otherwise later events are
processed and the invocation returns `Ok(())`. -/
def handleNewMessages (dec : List Nat → Option Cmd)
    (proc : Cmd → Ctx → Resp × Ctx) (enc : Resp → List Nat) :
    Ctx → List (Nat × List AcceptOutcome) → List IoOp × DrainResult Ctx
  | ctx, [] => ([], .ok ctx)
  | ctx, (tok, pending) :: rest =>
    if tok = 0 then
      match acceptLoop dec proc enc ctx pending with
      | (tr, .broke ctx2) =>
        ((tr ++ (handleNewMessages dec proc enc ctx2 rest).1 : List IoOp),
         (handleNewMessages dec proc enc ctx2 rest).2)
      | (tr, .fatal k ctx2) => (tr, .fatal k ctx2)
      | (tr, .spinForever) => (tr, .spinForever)
    else ([], .panicked)

end ServerModel

/-! ## `IpcServer::new` (src/lib.rs 29-50)

Construction performs, in order: delete the file at the socket path when one
exists (`remove_file`), `UnixListener::bind`, `set_permissions(0o600)`,
`Poll::new`, and `registry().register(Token(0), READABLE)`, each followed by
`?`.  The environment supplies which steps fail; the model records the steps
actually attempted and the resulting path / server state. -/

/-- Which construction steps the operating system makes fail, and with what
error. -/
structure NewEnv where
  removeErr : Option ErrKind
  bindErr : Option ErrKind
  setPermErr : Option ErrKind
  pollNewErr : Option ErrKind
  registerErr : Option ErrKind
  deriving Repr

/-- The filesystem state at the socket path: whether a file exists there and
its permission mode (`none` while unknown or unset). -/
structure PathState where
  fileExists : Bool
  mode : Option Nat
  deriving DecidableEq, Repr

/-- The constructed server's observable state: the poll registrations and the
event buffer capacity (`Events::with_capacity(128)`). -/
structure ServerModel where
  registered : List Nat
  eventsCapacity : Nat
  deriving DecidableEq, Repr

/-- One step attempted by `IpcServer::new`. -/
inductive NewStep where
  | removeStep
  | bindStep
  | setPermStep (m : Nat)
  | pollNewStep
  | registerStep (tok : Nat)
  deriving DecidableEq, Repr

/-- The tail of `IpcServer::new` after the stale-file check: bind, set
permissions to `0o600`, create the poll, register the listener under
`Token(0)`.  Each failing step's error is returned at once via `?`. -/
def ipcServerNewBind (env : NewEnv) :
    List NewStep × Except ErrKind (PathState × ServerModel) :=
  match env.bindErr with
  | some k => ([.bindStep], .error k)
  | none =>
    match env.setPermErr with
    | some k => ([.bindStep, .setPermStep 0o600], .error k)
    | none =>
      match env.pollNewErr with
      | some k => ([.bindStep, .setPermStep 0o600, .pollNewStep], .error k)
      | none =>
        match env.registerErr with
        | some k =>
          ([.bindStep, .setPermStep 0o600, .pollNewStep, .registerStep 0], .error k)
        | none =>
          ([.bindStep, .setPermStep 0o600, .pollNewStep, .registerStep 0],
           .ok (⟨true, some 0o600⟩, ⟨[0], 128⟩))

/-- `IpcServer::new` (src/lib.rs 29-50): when a file already exists at the
socket path it is removed first; then the bind phase runs.  Every error
propagates immediately as the construction result. -/
def ipcServerNew (env : NewEnv) (fs : PathState) :
    List NewStep × Except ErrKind (PathState × ServerModel) :=
  if fs.fileExists then
    match env.removeErr with
    | some k => ([.removeStep], .error k)
    | none => (.removeStep :: (ipcServerNewBind env).1, (ipcServerNewBind env).2)
  else ipcServerNewBind env

/-! ## Client model (`client_send`, src/lib.rs 121-149)

`client_send` connects (`unwrap`), writes the encoded command (`unwrap`),
then loops: `stream.read` into a fixed 1024-byte buffer; on `Ok(n)` it
decodes `buffer[..n]` — printing the response on success, logging a parse
failure — and returns either way; on a would-block error it sleeps 1 ms and
retries; on any other error it logs and returns. -/

section ClientModel

variable {Resp : Type}

/-- The read loop of `client_send`.  Each schedule entry is one `read`
outcome (the bytes available, of which at most 1024 fit the buffer, or an
error kind).  Returns the outcome paired with the number of 1 ms sleeps
taken: `none` means the schedule was exhausted while still retrying (the
loop never returned); `some none` means the call returned without a decoded
response; `some (some r)` means the response `r` was decoded and printed. -/
def clientReadLoop (decR : List Nat → Option Resp) :
    List (Except ErrKind (List Nat)) → Option (Option Resp) × Nat
  | [] => (none, 0)
  | .ok bytes :: _ => (some (decR (bytes.take 1024)), 0)
  | .error k :: rest =>
    if k = ErrKind.wouldBlock then
      ((clientReadLoop decR rest).1, (clientReadLoop decR rest).2 + 1)
    else (some none, 0)

/-- The value `client_send` returns to its caller: the Rust function's
return type is `()`, so every outcome of the read loop maps to the same
value — no error code reaches the caller. -/
def clientSendReturn (_outcome : Option (Option Resp) × Nat) : Unit := ()

/-- The milliseconds slept between would-block retries
(`std::thread::sleep_ms(1)`). -/
def clientRetrySleepMillis : Nat := 1

end ClientModel

/-! ## Trace bookkeeping -/

/-- Whether an operation is a read on connection `i`. -/
def isReadOf (i : Nat) : IoOp → Bool
  | .didRead j _ => j = i
  | _ => false

/-- Whether an operation is a response write on connection `i`. -/
def isWriteOf (i : Nat) : IoOp → Bool
  | .wrote j _ => j = i
  | _ => false

/-- The ids of the connections in one accept-queue schedule. -/
def connIds : List AcceptOutcome → List Nat
  | [] => []
  | .conn c :: rest => c.id :: connIds rest
  | .wouldBlockEnd :: rest => connIds rest
  | .acceptFail _ :: rest => connIds rest

/-- The ids of all connections across an invocation's delivered events. -/
def eventConnIds (events : List (Nat × List AcceptOutcome)) : List Nat :=
  (events.map fun e => connIds e.2).flatten

theorem leBytes_length (k n : Nat) : (leBytes k n).length = k := by
  induction k generalizing n with
  | zero => rfl
  | succ k ih => simp [leBytes, ih]

theorem readLe_leBytes_append (k n : Nat) (rest : List Nat) :
    readLe k (leBytes k n ++ rest) = some (n % 256 ^ k, rest) := by
  induction k generalizing n with
  | zero => simp [leBytes, readLe, Nat.mod_one]
  | succ k ih =>
    have h256 : (256 : Nat) ^ (k + 1) = 256 * 256 ^ k := by
      rw [pow_succ, Nat.mul_comm]
    have hrec : readLe k (leBytes k (n / 256) ++ rest) =
        some (n / 256 % 256 ^ k, rest) := ih (n / 256)
    simp only [leBytes, List.cons_append, readLe, List.append_eq, hrec, h256,
      Nat.mod_mul]

theorem readU64_u64le_append (n : Nat) (rest : List Nat) :
    readU64 (u64le n ++ rest) = some (n % 18446744073709551616, rest) := by
  have h := readLe_leBytes_append 8 n rest
  norm_num at h
  exact h

section ServerLemmas

variable {Cmd Resp Ctx : Type}
variable (dec : List Nat → Option Cmd) (proc : Cmd → Ctx → Resp × Ctx)
variable (enc : Resp → List Nat)

theorem acceptLoop_nil (ctx : Ctx) :
    acceptLoop dec proc enc ctx [] = ([], .broke ctx) := rfl

theorem acceptLoop_wouldBlockEnd (ctx : Ctx) (rest : List AcceptOutcome) :
    acceptLoop dec proc enc ctx (.wouldBlockEnd :: rest) = ([], .broke ctx) := rfl

theorem acceptLoop_acceptFail (ctx : Ctx) (k : ErrKind) (rest : List AcceptOutcome) :
    acceptLoop dec proc enc ctx (.acceptFail k :: rest) = ([], .broke ctx) := rfl

theorem acceptLoop_readErr (ctx : Ctx) (c : Conn) (k : ErrKind)
    (rest : List AcceptOutcome) (hr : c.readResult = .error k) :
    acceptLoop dec proc enc ctx (.conn c :: rest) = ([.accepted c.id], .broke ctx) := by
  simp [acceptLoop, hr]

theorem acceptLoop_decodeFail (ctx : Ctx) (c : Conn) (data : List Nat)
    (rest : List AcceptOutcome) (hr : c.readResult = .ok data)
    (hd : dec (data.take 1024) = none) :
    acceptLoop dec proc enc ctx (.conn c :: rest) =
      ([.accepted c.id, .didRead c.id (data.take 1024)], .fatal .invalidData ctx) := by
  simp [acceptLoop, hr, hd]

theorem acceptLoop_spin (ctx : Ctx) (c : Conn) (data : List Nat) (cmd : Cmd)
    (rest : List AcceptOutcome) (hr : c.readResult = .ok data)
    (hd : dec (data.take 1024) = some cmd) (hw : writeLoop c.writeSched = none) :
    acceptLoop dec proc enc ctx (.conn c :: rest) =
      ([.accepted c.id, .didRead c.id (data.take 1024)], .spinForever) := by
  simp [acceptLoop, hr, hd, processCommand, hw]

theorem acceptLoop_writeErr (ctx : Ctx) (c : Conn) (data : List Nat) (cmd : Cmd)
    (k : ErrKind) (rest : List AcceptOutcome) (hr : c.readResult = .ok data)
    (hd : dec (data.take 1024) = some cmd)
    (hw : writeLoop c.writeSched = some (.error k)) :
    acceptLoop dec proc enc ctx (.conn c :: rest) =
      ([.accepted c.id, .didRead c.id (data.take 1024)],
       .fatal k (proc cmd ctx).2) := by
  simp [acceptLoop, hr, hd, processCommand, hw]

theorem acceptLoop_writeOk (ctx : Ctx) (c : Conn) (data : List Nat) (cmd : Cmd)
    (rest : List AcceptOutcome) (hr : c.readResult = .ok data)
    (hd : dec (data.take 1024) = some cmd)
    (hw : writeLoop c.writeSched = some (.ok ())) :
    acceptLoop dec proc enc ctx (.conn c :: rest) =
      (.accepted c.id :: .didRead c.id (data.take 1024) ::
         .wrote c.id (enc (proc cmd ctx).1) ::
         (acceptLoop dec proc enc (proc cmd ctx).2 rest).1,
       (acceptLoop dec proc enc (proc cmd ctx).2 rest).2) := by
  simp [acceptLoop, hr, hd, processCommand, hw]

theorem acceptLoop_reads_le (i : Nat) (pending : List AcceptOutcome) :
    ∀ ctx : Ctx,
      ((acceptLoop dec proc enc ctx pending).1.countP (isReadOf i)) ≤
        (connIds pending).count i := by
  induction pending with
  | nil => intro ctx; simp [acceptLoop_nil]
  | cons head rest ih =>
    intro ctx
    cases head with
    | wouldBlockEnd => simp [acceptLoop_wouldBlockEnd, connIds]
    | acceptFail k => simp [acceptLoop_acceptFail, connIds]
    | conn c =>
      rcases hr : c.readResult with k | data
      · rw [acceptLoop_readErr dec proc enc ctx c k rest hr]
        simp [connIds, isReadOf]
      · rcases hd : dec (data.take 1024) with _ | cmd
        · rw [acceptLoop_decodeFail dec proc enc ctx c data rest hr hd]
          by_cases hci : c.id = i <;>
            simp [connIds, isReadOf, List.count_cons, hci]
        · rcases hw : writeLoop c.writeSched with _ | r
          · rw [acceptLoop_spin dec proc enc ctx c data cmd rest hr hd hw]
            by_cases hci : c.id = i <;>
              simp [connIds, isReadOf, List.count_cons, hci]
          · rcases r with k | u
            · rw [acceptLoop_writeErr dec proc enc ctx c data cmd k rest hr hd hw]
              by_cases hci : c.id = i <;>
                simp [connIds, isReadOf, List.count_cons, hci]
            · cases u
              rw [acceptLoop_writeOk dec proc enc ctx c data cmd rest hr hd hw]
              have htail := ih (proc cmd ctx).2
              by_cases hci : c.id = i <;>
                simp [connIds, isReadOf, isWriteOf, List.count_cons, hci,
                  List.countP_cons] <;>
                omega

theorem acceptLoop_writes_le (i : Nat) (pending : List AcceptOutcome) :
    ∀ ctx : Ctx,
      ((acceptLoop dec proc enc ctx pending).1.countP (isWriteOf i)) ≤
        (connIds pending).count i := by
  induction pending with
  | nil => intro ctx; simp [acceptLoop_nil]
  | cons head rest ih =>
    intro ctx
    cases head with
    | wouldBlockEnd => simp [acceptLoop_wouldBlockEnd, connIds]
    | acceptFail k => simp [acceptLoop_acceptFail, connIds]
    | conn c =>
      rcases hr : c.readResult with k | data
      · rw [acceptLoop_readErr dec proc enc ctx c k rest hr]
        simp [connIds, isWriteOf]
      · rcases hd : dec (data.take 1024) with _ | cmd
        · rw [acceptLoop_decodeFail dec proc enc ctx c data rest hr hd]
          by_cases hci : c.id = i <;>
            simp [connIds, isWriteOf, List.count_cons, hci]
        · rcases hw : writeLoop c.writeSched with _ | r
          · rw [acceptLoop_spin dec proc enc ctx c data cmd rest hr hd hw]
            by_cases hci : c.id = i <;>
              simp [connIds, isWriteOf, List.count_cons, hci]
          · rcases r with k | u
            · rw [acceptLoop_writeErr dec proc enc ctx c data cmd k rest hr hd hw]
              by_cases hci : c.id = i <;>
                simp [connIds, isWriteOf, List.count_cons, hci]
            · cases u
              rw [acceptLoop_writeOk dec proc enc ctx c data cmd rest hr hd hw]
              have htail := ih (proc cmd ctx).2
              by_cases hci : c.id = i <;>
                simp [connIds, isReadOf, isWriteOf, List.count_cons, hci,
                  List.countP_cons] <;>
                omega

theorem acceptLoop_wrote_spec (i : Nat) (bytes : List Nat)
    (pending : List AcceptOutcome) :
    ∀ ctx : Ctx, IoOp.wrote i bytes ∈ (acceptLoop dec proc enc ctx pending).1 →
      ∃ buf cmd cctx,
        IoOp.didRead i buf ∈ (acceptLoop dec proc enc ctx pending).1 ∧
        dec buf = some cmd ∧ bytes = enc (proc cmd cctx).1 := by
  induction pending with
  | nil => intro ctx h; simp [acceptLoop_nil] at h
  | cons head rest ih =>
    intro ctx hmem
    cases head with
    | wouldBlockEnd => simp [acceptLoop_wouldBlockEnd] at hmem
    | acceptFail k => simp [acceptLoop_acceptFail] at hmem
    | conn c =>
      rcases hr : c.readResult with k | data
      · rw [acceptLoop_readErr dec proc enc ctx c k rest hr] at hmem
        simp at hmem
      · rcases hd : dec (data.take 1024) with _ | cmd
        · rw [acceptLoop_decodeFail dec proc enc ctx c data rest hr hd] at hmem
          simp at hmem
        · rcases hw : writeLoop c.writeSched with _ | r
          · rw [acceptLoop_spin dec proc enc ctx c data cmd rest hr hd hw] at hmem
            simp at hmem
          · rcases r with k | u
            · rw [acceptLoop_writeErr dec proc enc ctx c data cmd k rest hr hd hw]
                at hmem
              simp at hmem
            · cases u
              rw [acceptLoop_writeOk dec proc enc ctx c data cmd rest hr hd hw]
                at hmem ⊢
              simp only [List.mem_cons] at hmem
              rcases hmem with h1 | h2 | h3 | htail
              · simp at h1
              · simp at h2
              · injection h3 with hid hbytes
                subst hid
                exact ⟨data.take 1024, cmd, ctx, by simp, hd, hbytes⟩
              · obtain ⟨buf, cmd2, cctx, hin, hdec2, hb⟩ :=
                  ih (proc cmd ctx).2 htail
                exact ⟨buf, cmd2, cctx, by simp [hin], hdec2, hb⟩

theorem eventConnIds_cons (tok : Nat) (pending : List AcceptOutcome)
    (rest : List (Nat × List AcceptOutcome)) :
    eventConnIds ((tok, pending) :: rest) = connIds pending ++ eventConnIds rest := by
  simp [eventConnIds]

theorem handle_reads_le (i : Nat) (events : List (Nat × List AcceptOutcome)) :
    ∀ ctx : Ctx,
      ((handleNewMessages dec proc enc ctx events).1.countP (isReadOf i)) ≤
        (eventConnIds events).count i := by
  induction events with
  | nil => intro ctx; simp [handleNewMessages, eventConnIds]
  | cons ev rest ih =>
    intro ctx
    obtain ⟨tok, pending⟩ := ev
    by_cases ht : tok = 0
    · subst ht
      rcases hal : acceptLoop dec proc enc ctx pending with ⟨tr, ex⟩
      have htr : (acceptLoop dec proc enc ctx pending).1 = tr := by rw [hal]
      have hbound : tr.countP (isReadOf i) ≤ (connIds pending).count i := by
        rw [← htr]; exact acceptLoop_reads_le dec proc enc i pending ctx
      rw [eventConnIds_cons, List.count_append]
      cases ex with
      | broke ctx2 =>
        have hstep : handleNewMessages dec proc enc ctx ((0, pending) :: rest) =
            (tr ++ (handleNewMessages dec proc enc ctx2 rest).1,
             (handleNewMessages dec proc enc ctx2 rest).2) := by
          simp [handleNewMessages, hal]
        rw [hstep]
        simp only [List.countP_append]
        exact Nat.add_le_add hbound (ih ctx2)
      | fatal k ctx2 =>
        have hstep : handleNewMessages dec proc enc ctx ((0, pending) :: rest) =
            (tr, .fatal k ctx2) := by
          simp [handleNewMessages, hal]
        rw [hstep]
        exact Nat.le_trans hbound (Nat.le_add_right _ _)
      | spinForever =>
        have hstep : handleNewMessages dec proc enc ctx ((0, pending) :: rest) =
            (tr, .spinForever) := by
          simp [handleNewMessages, hal]
        rw [hstep]
        exact Nat.le_trans hbound (Nat.le_add_right _ _)
    · simp [handleNewMessages, ht]

theorem handle_writes_le (i : Nat) (events : List (Nat × List AcceptOutcome)) :
    ∀ ctx : Ctx,
      ((handleNewMessages dec proc enc ctx events).1.countP (isWriteOf i)) ≤
        (eventConnIds events).count i := by
  induction events with
  | nil => intro ctx; simp [handleNewMessages, eventConnIds]
  | cons ev rest ih =>
    intro ctx
    obtain ⟨tok, pending⟩ := ev
    by_cases ht : tok = 0
    · subst ht
      rcases hal : acceptLoop dec proc enc ctx pending with ⟨tr, ex⟩
      have htr : (acceptLoop dec proc enc ctx pending).1 = tr := by rw [hal]
      have hbound : tr.countP (isWriteOf i) ≤ (connIds pending).count i := by
        rw [← htr]; exact acceptLoop_writes_le dec proc enc i pending ctx
      rw [eventConnIds_cons, List.count_append]
      cases ex with
      | broke ctx2 =>
        have hstep : handleNewMessages dec proc enc ctx ((0, pending) :: rest) =
            (tr ++ (handleNewMessages dec proc enc ctx2 rest).1,
             (handleNewMessages dec proc enc ctx2 rest).2) := by
          simp [handleNewMessages, hal]
        rw [hstep]
        simp only [List.countP_append]
        exact Nat.add_le_add hbound (ih ctx2)
      | fatal k ctx2 =>
        have hstep : handleNewMessages dec proc enc ctx ((0, pending) :: rest) =
            (tr, .fatal k ctx2) := by
          simp [handleNewMessages, hal]
        rw [hstep]
        exact Nat.le_trans hbound (Nat.le_add_right _ _)
      | spinForever =>
        have hstep : handleNewMessages dec proc enc ctx ((0, pending) :: rest) =
            (tr, .spinForever) := by
          simp [handleNewMessages, hal]
        rw [hstep]
        exact Nat.le_trans hbound (Nat.le_add_right _ _)
    · simp [handleNewMessages, ht]

theorem handle_wrote_spec (i : Nat) (bytes : List Nat)
    (events : List (Nat × List AcceptOutcome)) :
    ∀ ctx : Ctx,
      IoOp.wrote i bytes ∈ (handleNewMessages dec proc enc ctx events).1 →
      ∃ buf cmd cctx,
        IoOp.didRead i buf ∈ (handleNewMessages dec proc enc ctx events).1 ∧
        dec buf = some cmd ∧ bytes = enc (proc cmd cctx).1 := by
  induction events with
  | nil => intro ctx h; simp [handleNewMessages] at h
  | cons ev rest ih =>
    intro ctx hmem
    obtain ⟨tok, pending⟩ := ev
    by_cases ht : tok = 0
    · subst ht
      rcases hal : acceptLoop dec proc enc ctx pending with ⟨tr, ex⟩
      have htr : (acceptLoop dec proc enc ctx pending).1 = tr := by rw [hal]
      cases ex with
      | broke ctx2 =>
        have hstep : handleNewMessages dec proc enc ctx ((0, pending) :: rest) =
            (tr ++ (handleNewMessages dec proc enc ctx2 rest).1,
             (handleNewMessages dec proc enc ctx2 rest).2) := by
          simp [handleNewMessages, hal]
        rw [hstep] at hmem ⊢
        simp only [List.mem_append] at hmem
        rcases hmem with hintr | hintail
        · obtain ⟨buf, cmd, cctx, hin, hdec2, hb⟩ :=
            acceptLoop_wrote_spec dec proc enc i bytes pending ctx
              (htr ▸ hintr)
          exact ⟨buf, cmd, cctx, by simp [htr ▸ hin], hdec2, hb⟩
        · obtain ⟨buf, cmd, cctx, hin, hdec2, hb⟩ := ih ctx2 hintail
          exact ⟨buf, cmd, cctx, by simp [hin], hdec2, hb⟩
      | fatal k ctx2 =>
        have hstep : handleNewMessages dec proc enc ctx ((0, pending) :: rest) =
            (tr, .fatal k ctx2) := by
          simp [handleNewMessages, hal]
        rw [hstep] at hmem ⊢
        obtain ⟨buf, cmd, cctx, hin, hdec2, hb⟩ :=
          acceptLoop_wrote_spec dec proc enc i bytes pending ctx (htr ▸ hmem)
        exact ⟨buf, cmd, cctx, htr ▸ hin, hdec2, hb⟩
      | spinForever =>
        have hstep : handleNewMessages dec proc enc ctx ((0, pending) :: rest) =
            (tr, .spinForever) := by
          simp [handleNewMessages, hal]
        rw [hstep] at hmem ⊢
        obtain ⟨buf, cmd, cctx, hin, hdec2, hb⟩ :=
          acceptLoop_wrote_spec dec proc enc i bytes pending ctx (htr ▸ hmem)
        exact ⟨buf, cmd, cctx, htr ▸ hin, hdec2, hb⟩
    · simp [handleNewMessages, ht] at hmem

theorem handle_no_panic :
    ∀ (events : List (Nat × List AcceptOutcome)) (ctx : Ctx),
      (∀ e ∈ events, e.1 = 0) →
      (handleNewMessages dec proc enc ctx events).2 ≠ DrainResult.panicked := by
  intro events
  induction events with
  | nil => intro ctx _; simp [handleNewMessages]
  | cons ev rest ih =>
    intro ctx h
    obtain ⟨tok, pending⟩ := ev
    have ht0 : tok = 0 := h (tok, pending) (by simp)
    subst ht0
    rcases hal : acceptLoop dec proc enc ctx pending with ⟨tr, ex⟩
    cases ex with
    | broke ctx2 =>
      have hstep : handleNewMessages dec proc enc ctx ((0, pending) :: rest) =
          (tr ++ (handleNewMessages dec proc enc ctx2 rest).1,
           (handleNewMessages dec proc enc ctx2 rest).2) := by
        simp [handleNewMessages, hal]
      rw [hstep]
      exact ih ctx2 (fun e he => h e (by simp [he]))
    | fatal k ctx2 =>
      have hstep : handleNewMessages dec proc enc ctx ((0, pending) :: rest) =
          (tr, .fatal k ctx2) := by
        simp [handleNewMessages, hal]
      rw [hstep]
      intro hcon
      exact DrainResult.noConfusion hcon
    | spinForever =>
      have hstep : handleNewMessages dec proc enc ctx ((0, pending) :: rest) =
          (tr, .spinForever) := by
        simp [handleNewMessages, hal]
      rw [hstep]
      intro hcon
      exact DrainResult.noConfusion hcon

end ServerLemmas

theorem writeLoop_first_attempt_decides (a : Except ErrKind Unit)
    (tail : List (Except ErrKind Unit)) :
    writeLoop (a :: tail) = some (wrapSerializeErr a) := by
  rcases a with k | u
  · rfl
  · rfl

theorem ipcServerNew_registered (env : NewEnv) (fs : PathState)
    (fs2 : PathState) (srv : ServerModel)
    (h : (ipcServerNew env fs).2 = .ok (fs2, srv)) : srv.registered = [0] := by
  have hbind : (ipcServerNewBind env).2 = .ok (fs2, srv) → srv.registered = [0] := by
    intro h2
    rcases h1 : env.bindErr with _ | k1 <;>
      rcases h3 : env.setPermErr with _ | k3 <;>
        rcases h4 : env.pollNewErr with _ | k4 <;>
          rcases h5 : env.registerErr with _ | k5 <;>
            simp [ipcServerNewBind, h1, h3, h4, h5] at h2 <;>
            simp [← h2.2]
  rcases hfe : fs.fileExists with _ | _
  · rw [ipcServerNew] at h
    simp [hfe] at h
    exact hbind h
  · rw [ipcServerNew] at h
    simp [hfe] at h
    rcases hrm : env.removeErr with _ | k
    · simp [hrm] at h
      exact hbind h
    · simp [hrm] at h

/-! ## Claims -/

/-- C1: within one invocation of `handle_new_messages`, every accepted
connection yields at most one request read and at most one response write,
and every response written to a connection is the encoding of the value the
processing operation produced for the command decoded from the bytes read
from that same connection — strict request/response, never several frames
per connection. -/
theorem handle_strict_request_response {Cmd Resp Ctx : Type}
    (dec : List Nat → Option Cmd) (proc : Cmd → Ctx → Resp × Ctx)
    (enc : Resp → List Nat) (ctx : Ctx)
    (events : List (Nat × List AcceptOutcome))
    (hids : (eventConnIds events).Nodup) :
    (∀ i : Nat,
      ((handleNewMessages dec proc enc ctx events).1.countP (isReadOf i)) ≤ 1 ∧
      ((handleNewMessages dec proc enc ctx events).1.countP (isWriteOf i)) ≤ 1) ∧
    (∀ (i : Nat) (bytes : List Nat),
      IoOp.wrote i bytes ∈ (handleNewMessages dec proc enc ctx events).1 →
      ∃ buf cmd cctx,
        IoOp.didRead i buf ∈ (handleNewMessages dec proc enc ctx events).1 ∧
        dec buf = some cmd ∧ bytes = enc (proc cmd cctx).1) := by
  constructor
  · intro i
    have hcount := List.nodup_iff_count_le_one.1 hids i
    exact ⟨Nat.le_trans (handle_reads_le dec proc enc i events ctx) hcount,
           Nat.le_trans (handle_writes_le dec proc enc i events ctx) hcount⟩
  · intro i bytes h
    exact handle_wrote_spec dec proc enc i bytes events ctx h

/-- Witness for C1: one drain of a single connection carrying an encoded
`Push { x: 5 }` command satisfies the hypothesis and the conclusion. -/
theorem handle_strict_request_response_witness :
    (eventConnIds
      [(0, [AcceptOutcome.conn
              (Conn.mk 1 (.ok (serializeClientCommand (.push 5))) [.ok ()]),
            AcceptOutcome.wouldBlockEnd])]).Nodup ∧
    ((handleNewMessages deserializeClientCommand processClientCommand
        serializeClientResponse ([] : List Nat)
        [(0, [AcceptOutcome.conn
                (Conn.mk 1 (.ok (serializeClientCommand (.push 5))) [.ok ()]),
              AcceptOutcome.wouldBlockEnd])]).1.countP (isReadOf 1) ≤ 1 ∧
     (handleNewMessages deserializeClientCommand processClientCommand
        serializeClientResponse ([] : List Nat)
        [(0, [AcceptOutcome.conn
                (Conn.mk 1 (.ok (serializeClientCommand (.push 5))) [.ok ()]),
              AcceptOutcome.wouldBlockEnd])]).1.countP (isWriteOf 1) ≤ 1) :=
  ⟨by decide,
   (handle_strict_request_response deserializeClientCommand processClientCommand
      serializeClientResponse ([] : List Nat)
      [(0, [AcceptOutcome.conn
              (Conn.mk 1 (.ok (serializeClientCommand (.push 5))) [.ok ()]),
            AcceptOutcome.wouldBlockEnd])] (by decide)).1 1⟩

/-- C2: when decoding the bytes read from an accepted connection fails,
`handle_new_messages` returns the `InvalidData` decode error immediately —
the trace stops at that connection's read, no remaining pending connection
of the cycle and no later event is processed. -/
theorem decode_failure_aborts_invocation {Cmd Resp Ctx : Type}
    (dec : List Nat → Option Cmd) (proc : Cmd → Ctx → Resp × Ctx)
    (enc : Resp → List Nat) (ctx : Ctx) (c : Conn) (data : List Nat)
    (rest : List AcceptOutcome) (events : List (Nat × List AcceptOutcome))
    (hread : c.readResult = .ok data)
    (hdec : dec (data.take 1024) = none) :
    handleNewMessages dec proc enc ctx ((0, .conn c :: rest) :: events) =
      ([.accepted c.id, .didRead c.id (data.take 1024)],
       .fatal .invalidData ctx) := by
  have h := acceptLoop_decodeFail dec proc enc ctx c data rest hread hdec
  simp [handleNewMessages, h]

/-- Witness for C2: a connection delivering the undecodable bytes
`[9, 9, 9, 9]` (variant tag out of range) aborts the drain with
`InvalidData`, even though another decodable connection is still pending. -/
theorem decode_failure_aborts_invocation_witness :
    (Conn.mk 7 (.ok [9, 9, 9, 9]) []).readResult = .ok [9, 9, 9, 9] ∧
    deserializeClientCommand (([9, 9, 9, 9] : List Nat).take 1024) = none ∧
    handleNewMessages deserializeClientCommand processClientCommand
        serializeClientResponse ([] : List Nat)
        [(0, [AcceptOutcome.conn (Conn.mk 7 (.ok [9, 9, 9, 9]) []),
              AcceptOutcome.conn
                (Conn.mk 8 (.ok (serializeClientCommand (.push 5))) [.ok ()])])] =
      ([.accepted 7, .didRead 7 (([9, 9, 9, 9] : List Nat).take 1024)],
       .fatal .invalidData []) :=
  ⟨rfl, by decide,
   decode_failure_aborts_invocation deserializeClientCommand processClientCommand
     serializeClientResponse ([] : List Nat) (Conn.mk 7 (.ok [9, 9, 9, 9]) [])
     [9, 9, 9, 9]
     [AcceptOutcome.conn (Conn.mk 8 (.ok (serializeClientCommand (.push 5))) [.ok ()])]
     [] rfl (by decide)⟩

/-- C3: a command whose bincode encoding exceeds the fixed 1024-byte read
buffer never decodes from the truncated buffer contents: the 1024-byte
prefix of its encoding fails to deserialize, so it is never silently
accepted as a different, shorter valid command. -/
theorem oversized_command_never_decodes (c : ClientCommand)
    (hwf : clientCommandWf c)
    (hsize : 1024 < (serializeClientCommand c).length) :
    deserializeClientCommand ((serializeClientCommand c).take 1024) = none := by
  cases c with
  | add a b =>
    exfalso
    have h20 : (serializeClientCommand (.add a b)).length = 20 := by
      simp [serializeClientCommand, u32le, u64le, leBytes_length]
    omega
  | push x =>
    exfalso
    have h12 : (serializeClientCommand (.push x)).length = 12 := by
      simp [serializeClientCommand, u32le, u64le, leBytes_length]
    omega
  | print p =>
    have hp : 1012 < p.length := by
      have hs := hsize
      simp [serializeClientCommand, u32le, u64le, leBytes_length,
        List.length_append] at hs
      omega
    have hwf2 : p.length < 18446744073709551616 := hwf
    have h4 : (u32le 0).length = 4 := leBytes_length 4 0
    have h8 : (u64le p.length).length = 8 := leBytes_length 8 p.length
    have htake : (serializeClientCommand (.print p)).take 1024 =
        u32le 0 ++ (u64le p.length ++ p.take 1012) := by
      show (u32le 0 ++ u64le p.length ++ p).take 1024 = _
      rw [List.append_assoc, List.take_append_eq_append_take, h4,
        List.take_of_length_le (by rw [h4]; norm_num),
        List.take_append_eq_append_take, h8,
        List.take_of_length_le (by rw [h8]; norm_num)]
    have hr32 : readU32 (u32le 0 ++ (u64le p.length ++ p.take 1012)) =
        some (0, u64le p.length ++ p.take 1012) := by
      have h := readLe_leBytes_append 4 0 (u64le p.length ++ p.take 1012)
      simpa [readU32, u32le] using h
    have hr64 : readU64 (u64le p.length ++ p.take 1012) =
        some (p.length, p.take 1012) := by
      have h := readU64_u64le_append p.length (p.take 1012)
      rwa [Nat.mod_eq_of_lt hwf2] at h
    have hre : readExact p.length (p.take 1012) = none := by
      rw [readExact]
      have hl : (p.take 1012).length = 1012 := by
        rw [List.length_take]
        exact Nat.min_eq_left (by omega)
      rw [hl, if_neg (by omega)]
    rw [htake]
    simp [deserializeClientCommand, hr32, hr64, hre]

/-- Witness for C3: `Print` with a 1013-byte payload encodes to 1025 bytes
(over the buffer) and its truncated prefix fails to decode. -/
theorem oversized_command_never_decodes_witness :
    clientCommandWf (ClientCommand.print (List.replicate 1013 0)) ∧
    1024 < (serializeClientCommand (ClientCommand.print (List.replicate 1013 0))).length ∧
    deserializeClientCommand
      ((serializeClientCommand (ClientCommand.print (List.replicate 1013 0))).take 1024) =
      none :=
  ⟨by simp only [clientCommandWf, List.length_replicate]; norm_num,
   by simp only [serializeClientCommand, u32le, u64le, List.length_append,
        leBytes_length, List.length_replicate]; norm_num,
   oversized_command_never_decodes (ClientCommand.print (List.replicate 1013 0))
     (by simp only [clientCommandWf, List.length_replicate]; norm_num)
     (by simp only [serializeClientCommand, u32le, u64le, List.length_append,
        leBytes_length, List.length_replicate]; norm_num)⟩

/-- C4, counterexample: the claim says that after a failed read only that
connection is abandoned and the remaining pending connections of the same
drain invocation are still processed.  In the code the read-error arm does
`break`, ending the accept loop.  Here connection 1's read fails while
connection 2 is still pending with a perfectly decodable `Push { x: 5 }`
command and a writable stream; the drain's trace is just `[accepted 1]` —
connection 2 is never accepted, read or answered — although the invocation
does return `Ok(())`. -/
theorem read_error_abandons_rest_counterexample :
    handleNewMessages deserializeClientCommand processClientCommand
        serializeClientResponse ([] : List Nat)
        [(0, [AcceptOutcome.conn (Conn.mk 1 (.error (.other 0)) []),
              AcceptOutcome.conn
                (Conn.mk 2 (.ok (serializeClientCommand (.push 5))) [.ok ()])])] =
      ([.accepted 1], .ok []) ∧
    deserializeClientCommand
        ((serializeClientCommand (ClientCommand.push 5)).take 1024) =
      some (ClientCommand.push 5) ∧
    ((handleNewMessages deserializeClientCommand processClientCommand
        serializeClientResponse ([] : List Nat)
        [(0, [AcceptOutcome.conn (Conn.mk 1 (.error (.other 0)) []),
              AcceptOutcome.conn
                (Conn.mk 2 (.ok (serializeClientCommand (.push 5))) [.ok ()])])]).1.countP
      (isReadOf 2)) = 0 ∧
    ((handleNewMessages deserializeClientCommand processClientCommand
        serializeClientResponse ([] : List Nat)
        [(0, [AcceptOutcome.conn (Conn.mk 1 (.error (.other 0)) []),
              AcceptOutcome.conn
                (Conn.mk 2 (.ok (serializeClientCommand (.push 5))) [.ok ()])])]).1.countP
      (isWriteOf 2)) = 0 :=
  ⟨rfl, by decide, by decide, by decide⟩

/-- C4, amended: when the read from an accepted connection fails, the error
is logged and the accept loop of that readiness cycle `break`s — that
connection and every remaining pending connection of the same cycle are
abandoned (no further accept, read or write happens for them); the
invocation then continues with any later events, and still returns `Ok(())`
when nothing later fails. -/
theorem read_error_breaks_accept_loop {Cmd Resp Ctx : Type}
    (dec : List Nat → Option Cmd) (proc : Cmd → Ctx → Resp × Ctx)
    (enc : Resp → List Nat) (ctx : Ctx) (c : Conn) (k : ErrKind)
    (rest : List AcceptOutcome) (events : List (Nat × List AcceptOutcome))
    (hread : c.readResult = .error k) :
    handleNewMessages dec proc enc ctx ((0, .conn c :: rest) :: events) =
      (.accepted c.id :: (handleNewMessages dec proc enc ctx events).1,
       (handleNewMessages dec proc enc ctx events).2) := by
  have h := acceptLoop_readErr dec proc enc ctx c k rest hread
  simp [handleNewMessages, h]

/-- Witness for the amended C4: with no later events the invocation returns
`Ok(())` with the context untouched. -/
theorem read_error_breaks_accept_loop_witness :
    (Conn.mk 1 (.error (.other 0)) []).readResult = .error (.other 0) ∧
    handleNewMessages deserializeClientCommand processClientCommand
        serializeClientResponse ([] : List Nat)
        [(0, [AcceptOutcome.conn (Conn.mk 1 (.error (.other 0)) []),
              AcceptOutcome.conn
                (Conn.mk 3 (.ok (serializeClientCommand (.push 9))) [.ok ()])])] =
      ([.accepted 1], .ok []) :=
  ⟨rfl,
   read_error_breaks_accept_loop deserializeClientCommand processClientCommand
     serializeClientResponse ([] : List Nat) (Conn.mk 1 (.error (.other 0)) [])
     (.other 0)
     [AcceptOutcome.conn (Conn.mk 3 (.ok (serializeClientCommand (.push 9))) [.ok ()])]
     [] rfl⟩

/-- C5: constructing the server on a path where a file already exists first
deletes that file, then binds, then sets the socket file's mode to `0o600`
immediately after bind; on full success the path holds a bound socket with
mode `0o600` and the listener is registered under token 0; every
filesystem/bind/registration error propagates as the construction result;
and no step is ever retried (each step occurs at most once). -/
theorem server_new_stale_file (env : NewEnv) (fs : PathState)
    (hfe : fs.fileExists = true) :
    ((ipcServerNew env fs).1.head? = some .removeStep) ∧
    (∀ s : NewStep, ((ipcServerNew env fs).1.count s) ≤ 1) ∧
    (env.removeErr = none → env.bindErr = none → env.setPermErr = none →
     env.pollNewErr = none → env.registerErr = none →
      (ipcServerNew env fs).1 =
        [.removeStep, .bindStep, .setPermStep 0o600, .pollNewStep,
         .registerStep 0] ∧
      (ipcServerNew env fs).2 =
        .ok (PathState.mk true (some 0o600), ServerModel.mk [0] 128)) ∧
    (∀ k, env.removeErr = some k → (ipcServerNew env fs).2 = .error k) ∧
    (∀ k, env.removeErr = none → env.bindErr = some k →
      (ipcServerNew env fs).2 = .error k) ∧
    (∀ k, env.removeErr = none → env.bindErr = none → env.setPermErr = some k →
      (ipcServerNew env fs).2 = .error k) ∧
    (∀ k, env.removeErr = none → env.bindErr = none → env.setPermErr = none →
      env.pollNewErr = some k → (ipcServerNew env fs).2 = .error k) ∧
    (∀ k, env.removeErr = none → env.bindErr = none → env.setPermErr = none →
      env.pollNewErr = none → env.registerErr = some k →
      (ipcServerNew env fs).2 = .error k) := by
  refine ⟨?_, ?_, ?_, ?_, ?_, ?_, ?_, ?_⟩
  · rcases h1 : env.removeErr with _ | k1 <;> simp [ipcServerNew, hfe, h1]
  · intro s
    rcases h1 : env.removeErr with _ | k1 <;>
      rcases h2 : env.bindErr with _ | k2 <;>
        rcases h3 : env.setPermErr with _ | k3 <;>
          rcases h4 : env.pollNewErr with _ | k4 <;>
            rcases h5 : env.registerErr with _ | k5 <;>
              simp only [ipcServerNew, ipcServerNewBind, hfe, h1, h2, h3, h4, h5,
                if_true] <;>
              exact List.nodup_iff_count_le_one.1 (by decide) s
  · intro h1 h2 h3 h4 h5
    simp [ipcServerNew, ipcServerNewBind, hfe, h1, h2, h3, h4, h5]
  · intro k h1
    simp [ipcServerNew, hfe, h1]
  · intro k h1 h2
    simp [ipcServerNew, ipcServerNewBind, hfe, h1, h2]
  · intro k h1 h2 h3
    simp [ipcServerNew, ipcServerNewBind, hfe, h1, h2, h3]
  · intro k h1 h2 h3 h4
    simp [ipcServerNew, ipcServerNewBind, hfe, h1, h2, h3, h4]
  · intro k h1 h2 h3 h4 h5
    simp [ipcServerNew, ipcServerNewBind, hfe, h1, h2, h3, h4, h5]

/-- Witness for C5: a fully successful construction over an existing file
removes it and yields the bound, `0o600`-restricted, token-0-registered
server. -/
theorem server_new_stale_file_witness :
    (PathState.mk true (some 420)).fileExists = true ∧
    (ipcServerNew (NewEnv.mk none none none none none)
        (PathState.mk true (some 420))).1 =
      [.removeStep, .bindStep, .setPermStep 0o600, .pollNewStep,
       .registerStep 0] ∧
    (ipcServerNew (NewEnv.mk none none none none none)
        (PathState.mk true (some 420))).2 =
      .ok (PathState.mk true (some 0o600), ServerModel.mk [0] 128) :=
  ⟨rfl,
   (server_new_stale_file (NewEnv.mk none none none none none)
      (PathState.mk true (some 420)) rfl).2.2.1 rfl rfl rfl rfl rfl⟩

/-- C6: a read that returns zero bytes still goes through decoding: the
empty byte slice fails to deserialize into a `ClientCommand`, and the
failure propagates out of `handle_new_messages` as the same fatal
`InvalidData` decode error as any other decode failure. -/
theorem zero_byte_read_fatal_decode {Resp Ctx : Type}
    (proc : ClientCommand → Ctx → Resp × Ctx) (enc : Resp → List Nat)
    (ctx : Ctx) (c : Conn) (rest : List AcceptOutcome)
    (events : List (Nat × List AcceptOutcome))
    (hread : c.readResult = .ok []) :
    handleNewMessages deserializeClientCommand proc enc ctx
        ((0, .conn c :: rest) :: events) =
      ([.accepted c.id, .didRead c.id []], .fatal .invalidData ctx) := by
  have hdec : deserializeClientCommand (([] : List Nat).take 1024) = none := by
    decide
  have h := acceptLoop_decodeFail deserializeClientCommand proc enc ctx c []
    rest hread hdec
  simp [handleNewMessages, h]

/-- Witness for C6: a single connection whose read yields zero bytes aborts
the drain with the `InvalidData` decode error. -/
theorem zero_byte_read_fatal_decode_witness :
    (Conn.mk 4 (.ok []) []).readResult = .ok ([] : List Nat) ∧
    handleNewMessages deserializeClientCommand processClientCommand
        serializeClientResponse ([] : List Nat)
        [(0, [AcceptOutcome.conn (Conn.mk 4 (.ok []) [])])] =
      ([.accepted 4, .didRead 4 []], .fatal .invalidData []) :=
  ⟨rfl,
   zero_byte_read_fatal_decode processClientCommand serializeClientResponse
     ([] : List Nat) (Conn.mk 4 (.ok []) []) [] [] rfl⟩

/-- C7, code bug: the claim (and the code's own spin-loop comment) say a
would-block write is retried in a busy-wait until it succeeds or a
non-retryable error occurs.  The code does not do that: the
`.map_err(|e| io::Error::new(io::ErrorKind::InvalidData, e))` on line 100
runs before the `would_block(err)` guard on line 103, so every failed
`serialize_into` attempt reaches the `match` with kind `InvalidData`, the
guard never fires, and the spin-and-`continue` arm is dead code.  At the
failing input — a first write attempt that fails with a genuine `WouldBlock`
while the next attempt would succeed — `process_command` returns the wrapped
`InvalidData` error immediately instead of retrying into the success. -/
theorem write_would_block_not_retried :
    (processCommand processClientCommand serializeClientResponse
        (ClientCommand.push 1) ([] : List Nat)
        (Conn.mk 1 (.ok []) [.error .wouldBlock, .ok ()])).1 =
      some (.error .invalidData) ∧
    writeLoop [.ok ()] = some (.ok ()) :=
  ⟨rfl, rfl⟩

/-- C8: in `client_send`, when a read yields bytes but decoding them into a
`Response` fails, the call returns at once — no response, no retry,
regardless of what later reads would have produced — and the function's
return value (of type `()`) carries no error signal distinguishing this
outcome from any other. -/
theorem client_decode_failure_is_silent {Resp : Type}
    (decR : List Nat → Option Resp) (bytes : List Nat)
    (rest : List (Except ErrKind (List Nat)))
    (hdec : decR (bytes.take 1024) = none) :
    clientReadLoop decR (.ok bytes :: rest) = (some none, 0) ∧
    (∀ o : Option (Option Resp) × Nat, clientSendReturn o = ()) := by
  constructor
  · simp [clientReadLoop, hdec]
  · intro o
    rfl

/-- Witness for C8: four bytes holding an out-of-range response tag decode
to nothing; the read loop returns immediately without a response. -/
theorem client_decode_failure_is_silent_witness :
    deserializeClientResponse (([9, 9, 9, 9] : List Nat).take 1024) = none ∧
    clientReadLoop deserializeClientResponse
        (.ok [9, 9, 9, 9] :: [.ok (serializeClientResponse .printAck)]) =
      (some none, 0) :=
  ⟨by decide,
   (client_decode_failure_is_silent deserializeClientResponse [9, 9, 9, 9]
      [.ok (serializeClientResponse .printAck)] (by decide)).1⟩

/-- C9: in `client_send`'s read loop a would-block read never causes the
call to return: each one adds one fixed 1 ms sleep and a retry, with no
deadline — a schedule of would-blocks alone never returns; the call returns
exactly when a read yields bytes, or fails with a non-would-block error. -/
theorem client_read_retries_on_would_block {Resp : Type}
    (decR : List Nat → Option Resp) :
    (∀ (n : Nat) (rest : List (Except ErrKind (List Nat))),
      clientReadLoop decR (List.replicate n (.error .wouldBlock) ++ rest) =
        ((clientReadLoop decR rest).1, (clientReadLoop decR rest).2 + n)) ∧
    (∀ n : Nat,
      clientReadLoop decR (List.replicate n (.error .wouldBlock)) = (none, n)) ∧
    (∀ (bytes : List Nat) (rest : List (Except ErrKind (List Nat))),
      (clientReadLoop decR (.ok bytes :: rest)).1 =
        some (decR (bytes.take 1024))) ∧
    (∀ (k : ErrKind) (rest : List (Except ErrKind (List Nat))),
      k ≠ ErrKind.wouldBlock →
      clientReadLoop decR (.error k :: rest) = (some none, 0)) ∧
    clientRetrySleepMillis = 1 := by
  have hskip : ∀ (n : Nat) (rest : List (Except ErrKind (List Nat))),
      clientReadLoop decR (List.replicate n (.error .wouldBlock) ++ rest) =
        ((clientReadLoop decR rest).1, (clientReadLoop decR rest).2 + n) := by
    intro n
    induction n with
    | zero => intro rest; simp
    | succ n ih =>
      intro rest
      simp only [List.replicate_succ, List.cons_append, clientReadLoop,
        List.append_eq, eq_self_iff_true, if_true, ih rest, Prod.mk.injEq,
        true_and]
      omega
  refine ⟨hskip, ?_, ?_, ?_, rfl⟩
  · intro n
    have h := hskip n []
    simpa [clientReadLoop] using h
  · intro bytes rest
    simp [clientReadLoop]
  · intro k rest hk
    simp [clientReadLoop, hk]

/-- Witness for C9: three would-blocks then a successful read of an encoded
`PrintAck` response: three sleeps, then the decoded response is returned. -/
theorem client_read_retries_on_would_block_witness :
    clientReadLoop deserializeClientResponse
        (List.replicate 3 (.error .wouldBlock) ++
          [.ok (serializeClientResponse .printAck)]) =
      ((clientReadLoop deserializeClientResponse
          [.ok (serializeClientResponse .printAck)]).1,
       (clientReadLoop deserializeClientResponse
          [.ok (serializeClientResponse .printAck)]).2 + 3) :=
  (client_read_retries_on_would_block deserializeClientResponse).1 3
    [.ok (serializeClientResponse .printAck)]

/-- C10: the `unreachable!()` arm of the token match never runs: a server
built by `IpcServer::new` has only the listener registered, under token 0,
so when poll delivers only events whose tokens are registered, no sequence
of client connections makes `handle_new_messages` reach the panic arm. -/
theorem unreachable_token_arm_never_runs {Cmd Resp Ctx : Type}
    (dec : List Nat → Option Cmd) (proc : Cmd → Ctx → Resp × Ctx)
    (enc : Resp → List Nat) (env : NewEnv) (fs fs2 : PathState)
    (srv : ServerModel) (ctx : Ctx)
    (events : List (Nat × List AcceptOutcome))
    (hnew : (ipcServerNew env fs).2 = .ok (fs2, srv))
    (htok : ∀ e ∈ events, e.1 ∈ srv.registered) :
    (handleNewMessages dec proc enc ctx events).2 ≠ DrainResult.panicked := by
  have hreg := ipcServerNew_registered env fs fs2 srv hnew
  rw [hreg] at htok
  refine handle_no_panic dec proc enc events ctx ?_
  intro e he
  have h := htok e he
  simpa using h

/-- Witness for C10: a freshly constructed server receiving one token-0
event with an empty accept queue does not panic. -/
theorem unreachable_token_arm_never_runs_witness :
    (ipcServerNew (NewEnv.mk none none none none none)
        (PathState.mk false none)).2 =
      .ok (PathState.mk true (some 0o600), ServerModel.mk [0] 128) ∧
    (handleNewMessages deserializeClientCommand processClientCommand
        serializeClientResponse ([] : List Nat) [(0, [])]).2 ≠
      DrainResult.panicked :=
  ⟨rfl,
   unreachable_token_arm_never_runs deserializeClientCommand
     processClientCommand serializeClientResponse
     (NewEnv.mk none none none none none) (PathState.mk false none)
     (PathState.mk true (some 0o600)) (ServerModel.mk [0] 128)
     ([] : List Nat) [(0, [])] rfl
     (by intro e he; simp at he; simp [he])⟩

end IpcVerify
